import Mathlib

/-!
Verification of the localui repository's content-preview pipeline, S3 bucket
listing loader, SQS create-queue action, root error boundary and console-home
index loader, over a shallow embedding of the TypeScript sources.

JavaScript strings are modelled as lists of characters (`Str`); the JS string
methods the sources use (`startsWith`, `endsWith`, `lastIndexOf`, `slice`,
`replace`, template-literal coercion) are embedded as executable functions on
`Str` that follow the ECMAScript semantics at the call sites in question.
-/

namespace LocalUI

/-- A JavaScript string, modelled as its sequence of UTF-16-ish characters. -/
abbrev Str := List Char

/-- JS `s.startsWith(p)`: `p` is a prefix of `s`. -/
def jsStartsWith (s p : Str) : Bool := p.isPrefixOf s

/-- JS `s.endsWith(p)`: `p` is a suffix of `s`. -/
def jsEndsWith (s p : Str) : Bool := p.isSuffixOf s

/-! ### The content-type classifier (PreviewElement.tsx, `PreviewContent`) -/

/-- The seven renderer variants `PreviewContent` can select: the `img`,
`video` and `audio` embeds, the CSV `DataGrid` viewer, the syntax-highlighted
text viewer, the JSON `TreeView` viewer, and the full-size `iframe` fallback. -/
inductive RendererVariant where
  | image
  | video
  | audio
  | csv
  | text
  | json
  | iframe
deriving DecidableEq

/-- Shallow embedding of `PreviewContent` (PreviewElement.tsx lines 201-225):
the chain of `contentType.startsWith(...)` tests, in source order, selecting
the renderer variant. -/
def PreviewContent (contentType : Str) : RendererVariant :=
  if jsStartsWith contentType ("image/".data) then .image
  else if jsStartsWith contentType ("video/".data) then .video
  else if jsStartsWith contentType ("audio/".data) then .audio
  else if jsStartsWith contentType ("text/csv".data) then .csv
  else if jsStartsWith contentType ("text/".data) then .text
  else if jsStartsWith contentType ("application/json".data) then .json
  else .iframe

/-- Two lists that are both prefixes of a third are comparable, so a string
cannot start with two prefix-incomparable patterns at once. -/
lemma jsStartsWith_excl {a b s : Str} (hab : ¬ a <+: b) (hba : ¬ b <+: a)
    (h : jsStartsWith s a = true) : jsStartsWith s b = false := by
  rw [jsStartsWith, List.isPrefixOf_iff_prefix] at h
  rw [jsStartsWith]
  simp only [Bool.eq_false_iff, ne_eq, List.isPrefixOf_iff_prefix]
  intro hb
  rcases List.prefix_or_prefix_of_prefix h hb with hc | hc
  · exact hab hc
  · exact hba hc

/-- A string that starts with `a` also starts with any prefix `b` of `a`. -/
lemma jsStartsWith_of_prefix {a b s : Str} (hba : b <+: a)
    (h : jsStartsWith s a = true) : jsStartsWith s b = true := by
  rw [jsStartsWith, List.isPrefixOf_iff_prefix] at h ⊢
  exact hba.trans h

/-- C1: for every MIME-type string, `PreviewContent` selects exactly one of
the seven renderer variants, totally: the image embed iff the type starts with
"image/", the video embed iff it starts with "video/", the audio embed iff it
starts with "audio/", the CSV viewer iff it starts with "text/csv", the text
viewer iff it starts with "text/" but not "text/csv", the JSON viewer iff it
starts with "application/json" and with none of the earlier patterns, and the
iframe fallback exactly when no pattern matches. -/
theorem previewContent_classification (ct : Str) :
    (PreviewContent ct = .image ↔ jsStartsWith ct ("image/".data) = true) ∧
    (PreviewContent ct = .video ↔ jsStartsWith ct ("video/".data) = true) ∧
    (PreviewContent ct = .audio ↔ jsStartsWith ct ("audio/".data) = true) ∧
    (PreviewContent ct = .csv ↔ jsStartsWith ct ("text/csv".data) = true) ∧
    (PreviewContent ct = .text ↔
      (jsStartsWith ct ("text/".data) = true ∧
       jsStartsWith ct ("text/csv".data) = false)) ∧
    (PreviewContent ct = .json ↔
      jsStartsWith ct ("application/json".data) = true) ∧
    (PreviewContent ct = .iframe ↔
      (jsStartsWith ct ("image/".data) = false ∧
       jsStartsWith ct ("video/".data) = false ∧
       jsStartsWith ct ("audio/".data) = false ∧
       jsStartsWith ct ("text/".data) = false ∧
       jsStartsWith ct ("application/json".data) = false)) := by
  have exim : ∀ (a b : Str), ¬ a <+: b → ¬ b <+: a →
      jsStartsWith ct a = true → jsStartsWith ct b = false :=
    fun _ _ hab hba h => jsStartsWith_excl hab hba h
  unfold PreviewContent
  split_ifs with h1 h2 h3 h4 h5 h6
  · have hv := exim _ ("video/".data) (by decide) (by decide) h1
    have ha := exim _ ("audio/".data) (by decide) (by decide) h1
    have hc := exim _ ("text/csv".data) (by decide) (by decide) h1
    have ht := exim _ ("text/".data) (by decide) (by decide) h1
    have hj := exim _ ("application/json".data) (by decide) (by decide) h1
    exact ⟨iff_of_true rfl h1, iff_of_false (by decide) (by simp [hv]),
      iff_of_false (by decide) (by simp [ha]),
      iff_of_false (by decide) (by simp [hc]),
      iff_of_false (by decide) (fun hx => by simp [ht] at hx),
      iff_of_false (by decide) (by simp [hj]),
      iff_of_false (by decide) (fun hx => by simp [h1] at hx)⟩
  · have ha := exim _ ("audio/".data) (by decide) (by decide) h2
    have hc := exim _ ("text/csv".data) (by decide) (by decide) h2
    have ht := exim _ ("text/".data) (by decide) (by decide) h2
    have hj := exim _ ("application/json".data) (by decide) (by decide) h2
    exact ⟨iff_of_false (by decide) h1, iff_of_true rfl h2,
      iff_of_false (by decide) (by simp [ha]),
      iff_of_false (by decide) (by simp [hc]),
      iff_of_false (by decide) (fun hx => by simp [ht] at hx),
      iff_of_false (by decide) (by simp [hj]),
      iff_of_false (by decide) (fun hx => by simp [h2] at hx)⟩
  · have hc := exim _ ("text/csv".data) (by decide) (by decide) h3
    have ht := exim _ ("text/".data) (by decide) (by decide) h3
    have hj := exim _ ("application/json".data) (by decide) (by decide) h3
    exact ⟨iff_of_false (by decide) h1, iff_of_false (by decide) h2,
      iff_of_true rfl h3,
      iff_of_false (by decide) (by simp [hc]),
      iff_of_false (by decide) (fun hx => by simp [ht] at hx),
      iff_of_false (by decide) (by simp [hj]),
      iff_of_false (by decide) (fun hx => by simp [h3] at hx)⟩
  · have ht : jsStartsWith ct ("text/".data) = true :=
      jsStartsWith_of_prefix (by decide) h4
    have hj := exim _ ("application/json".data) (by decide) (by decide) h4
    exact ⟨iff_of_false (by decide) h1, iff_of_false (by decide) h2,
      iff_of_false (by decide) h3, iff_of_true rfl h4,
      iff_of_false (by decide) (fun hx => by simp [h4] at hx),
      iff_of_false (by decide) (by simp [hj]),
      iff_of_false (by decide) (fun hx => by simp [ht] at hx)⟩
  · have hj := exim _ ("application/json".data) (by decide) (by decide) h5
    exact ⟨iff_of_false (by decide) h1, iff_of_false (by decide) h2,
      iff_of_false (by decide) h3, iff_of_false (by decide) h4,
      iff_of_true rfl ⟨h5, by simpa using h4⟩,
      iff_of_false (by decide) (by simp [hj]),
      iff_of_false (by decide) (fun hx => by simp [h5] at hx)⟩
  · exact ⟨iff_of_false (by decide) h1, iff_of_false (by decide) h2,
      iff_of_false (by decide) h3, iff_of_false (by decide) h4,
      iff_of_false (by decide) (fun hx => h5 hx.1),
      iff_of_true rfl h6,
      iff_of_false (by decide) (fun hx => by simp [h6] at hx)⟩
  · exact ⟨iff_of_false (by decide) h1, iff_of_false (by decide) h2,
      iff_of_false (by decide) h3, iff_of_false (by decide) h4,
      iff_of_false (by decide) (fun hx => h5 hx.1),
      iff_of_false (by decide) h6,
      iff_of_true rfl ⟨by simpa using h1, by simpa using h2, by simpa using h3,
        by simpa using h5, by simpa using h6⟩⟩

/-- C2: the "text/csv" test takes precedence over the generic "text/" test:
a content type starting with "text/csv" gets the tabular CSV viewer, and any
other content type starting with "text/" gets the plain-text viewer. -/
theorem previewContent_csv_precedence (ct : Str) :
    (jsStartsWith ct ("text/csv".data) = true → PreviewContent ct = .csv) ∧
    (jsStartsWith ct ("text/".data) = true →
     jsStartsWith ct ("text/csv".data) = false → PreviewContent ct = .text) := by
  constructor
  · intro h
    exact ((previewContent_classification ct).2.2.2.1).mpr h
  · intro ht hc
    exact ((previewContent_classification ct).2.2.2.2.1).mpr ⟨ht, hc⟩

/-- C2 witness: "text/csv;charset=utf-8" selects the CSV viewer and
"text/plain" selects the text viewer. -/
theorem previewContent_csv_precedence_witness :
    PreviewContent ("text/csv;charset=utf-8".data) = .csv ∧
    PreviewContent ("text/plain".data) = .text :=
  ⟨(previewContent_csv_precedence ("text/csv;charset=utf-8".data)).1 (by decide),
   (previewContent_csv_precedence ("text/plain".data)).2 (by decide) (by decide)⟩

/-! ### JSON values and `convertToTree` (PreviewElement.tsx lines 114-151) -/

/-- A parsed JSON value, as `response.json()` produces it: primitives, arrays
and objects. Numbers are modelled as integers (none of the claims under
verification depends on the printing of fractional numbers). -/
inductive Json where
  | null
  | bool (b : Bool)
  | num (n : Int)
  | str (s : Str)
  | arr (elems : List Json)
  | obj (fields : List (Str × Json))

/-- The composite test guarding recursion in `convertToTree`:
`Array.isArray(obj) || (typeof obj === 'object' && obj !== null)`. -/
def Json.isComposite : Json → Bool
  | .arr _ => true
  | .obj _ => true
  | _ => false

/-- Whether a JSON value is the null value (JS `v === null`). -/
def Json.isNull : Json → Bool
  | .null => true
  | _ => false

/-- Index keys of `Object.entries` on an array: element `i` is paired with the
decimal string for `i`. -/
def enumKeys (i : Nat) : List Json → List (Str × Json)
  | [] => []
  | x :: xs => ((toString i).data, x) :: enumKeys (i + 1) xs

/-- JS `Object.entries(obj)` at the call sites in `convertToTree`: for an
array, decimal index keys paired with the elements; for an object, its
key/value pairs in insertion order; primitives have none. -/
def jsEntries : Json → List (Str × Json)
  | .arr elems => enumKeys 0 elems
  | .obj fields => fields
  | _ => []

/-- The escaping `JSON.stringify` applies inside a string literal (quotation
mark and reverse solidus; other characters are kept as they are). -/
def jsonEscapeChar (c : Char) : Str :=
  if c = '"' then ['\\', '"']
  else if c = '\\' then ['\\', '\\']
  else [c]

lemma sizeOf_lt_of_mem_arr {j : Json} {l : List Json} (h : j ∈ l) :
    sizeOf j < sizeOf (Json.arr l) := by
  have := List.sizeOf_lt_of_mem h
  simp only [Json.arr.sizeOf_spec]
  omega

lemma sizeOf_lt_of_mem_obj {k : Str} {j : Json} {l : List (Str × Json)}
    (h : (k, j) ∈ l) : sizeOf j < sizeOf (Json.obj l) := by
  have h1 := List.sizeOf_lt_of_mem h
  have h2 : sizeOf (k, j) = 1 + sizeOf k + sizeOf j := rfl
  simp only [Json.obj.sizeOf_spec]
  omega

lemma mem_of_mem_enumKeys {i : Nat} {l : List Json} {k : Str} {v : Json}
    (h : (k, v) ∈ enumKeys i l) : v ∈ l := by
  induction l generalizing i with
  | nil => simp [enumKeys] at h
  | cons x xs ih =>
    rw [enumKeys, List.mem_cons] at h
    rcases h with h | h
    · rw [Prod.mk.injEq] at h
      exact h.2 ▸ List.mem_cons_self x xs
    · exact List.mem_cons_of_mem x (ih h)

/-- Each entry of a composite JSON value is strictly smaller than the value:
the measure that terminates the recursion of `convertToTree`. -/
lemma jsEntries_sizeOf_lt {j : Json} {k : Str} {v : Json}
    (h : (k, v) ∈ jsEntries j) : sizeOf v < sizeOf j := by
  cases j with
  | arr elems => exact sizeOf_lt_of_mem_arr (mem_of_mem_enumKeys h)
  | obj fields => exact sizeOf_lt_of_mem_obj h
  | null => simp [jsEntries] at h
  | bool b => simp [jsEntries] at h
  | num n => simp [jsEntries] at h
  | str s => simp [jsEntries] at h

/-- JS `JSON.stringify` over the modelled JSON values. `convertToTree` only
applies it to primitive values (the leaf labels), but it is embedded in full. -/
def jsonStringify (j : Json) : Str :=
  match j with
  | .null => "null".data
  | .bool b => if b then "true".data else "false".data
  | .num n => (toString n).data
  | .str s => '"' :: (s.flatMap jsonEscapeChar ++ ['"'])
  | .arr elems =>
    '[' :: (List.intercalate (",".data)
      (elems.attach.map (fun e => jsonStringify e.1)) ++ [']'])
  | .obj fields =>
    '{' :: (List.intercalate (",".data)
      (fields.attach.map (fun e =>
        '"' :: (e.1.1.flatMap jsonEscapeChar ++ ['"', ':'])
          ++ jsonStringify e.1.2)) ++ ['}'])
termination_by sizeOf j
decreasing_by
  · exact sizeOf_lt_of_mem_arr e.2
  · exact sizeOf_lt_of_mem_obj (k := e.1.1) (by
      have := e.2
      rwa [show (e.1.1, e.1.2) = e.1 from rfl])

/-- JS template-literal coercion `${v}` (the abstract `String(v)` operation)
over the modelled JSON values; `convertToTree` only reaches it for primitive
values (line 150 sits behind the negated composite guard). -/
def jsToString (j : Json) : Str :=
  match j with
  | .null => "null".data
  | .bool b => if b then "true".data else "false".data
  | .num n => (toString n).data
  | .str s => s
  | .arr elems =>
    List.intercalate (",".data)
      (elems.attach.map (fun e =>
        if e.1.isNull then [] else jsToString e.1))
  | .obj _ => "[object Object]".data
termination_by sizeOf j
decreasing_by
  exact sizeOf_lt_of_mem_arr e.2

/-- The fragment of React element trees `convertToTree` produces: an array of
nodes, a `TreeItem` (carrying its `nodeId`, the key shown in its label, the
stringified value shown next to the key for primitive entries, and its
children), or a bare `JsonValue` leaf (carrying its React `key` and its
stringified value). -/
inductive ReactNode where
  | nodes (children : List ReactNode)
  | treeItem (nodeId : Str) (keyLabel : Str) (valueLabel : Option Str)
      (children : List ReactNode)
  | jsonValue (reactKey : Str) (valueLabel : Str)

/-- The decoration `convertToTree` puts around a key in a node id:
the template literal `${keyPrefix}['${key}']` minus the prefix part. -/
def bracketWrap (k : Str) : Str := '[' :: '\'' :: (k ++ ['\'', ']'])

/-- Shallow embedding of `convertToTree` (PreviewElement.tsx lines 114-151):
a composite value maps to one `TreeItem` per `Object.entries` entry, recursing
into composite entry values, each node id being the parent's id extended with
`['key']`; a primitive value maps to a bare `JsonValue` leaf. -/
def convertToTree (obj : Json) (keyPrefix : Str) : ReactNode :=
  if obj.isComposite then
    .nodes ((jsEntries obj).attach.map (fun e =>
      if e.1.2.isComposite then
        .treeItem (keyPrefix ++ bracketWrap e.1.1) e.1.1 none
          [convertToTree e.1.2 (keyPrefix ++ bracketWrap e.1.1)]
      else
        .treeItem (keyPrefix ++ bracketWrap e.1.1) e.1.1
          (some (jsonStringify e.1.2)) []))
  else
    .jsonValue (keyPrefix ++ bracketWrap (jsToString obj)) (jsonStringify obj)
termination_by sizeOf obj
decreasing_by
  all_goals exact jsEntries_sizeOf_lt (k := e.1.1) (by
    have := e.2
    rwa [show (e.1.1, e.1.2) = e.1 from rfl])

/-- The node `convertToTree` builds for one entry of a composite value
(a plain-function view of the body of the `map` in the source). -/
def entryNode (keyPrefix : Str) (e : Str × Json) : ReactNode :=
  if e.2.isComposite then
    .treeItem (keyPrefix ++ bracketWrap e.1) e.1 none
      [convertToTree e.2 (keyPrefix ++ bracketWrap e.1)]
  else
    .treeItem (keyPrefix ++ bracketWrap e.1) e.1 (some (jsonStringify e.2)) []

/-- Unfolding equation of `convertToTree` on a composite value, with the
`attach` bookkeeping removed. -/
lemma convertToTree_composite {j : Json} (keyPrefix : Str)
    (h : j.isComposite = true) :
    convertToTree j keyPrefix =
      .nodes ((jsEntries j).map (entryNode keyPrefix)) := by
  rw [convertToTree, if_pos h]
  congr 1
  rw [← List.attach_map_val (jsEntries j) (entryNode keyPrefix)]
  apply List.map_congr_left
  intro e _
  simp only [entryNode]

/-- Unfolding equation of `convertToTree` on a primitive value. -/
lemma convertToTree_primitive {j : Json} (keyPrefix : Str)
    (h : j.isComposite = false) :
    convertToTree j keyPrefix =
      .jsonValue (keyPrefix ++ bracketWrap (jsToString j)) (jsonStringify j) := by
  rw [convertToTree, if_neg (by simp [h])]

/-- React flattens an array child into the surrounding children list; a
`.nodes` wrapper therefore stands for its element list. -/
def ReactNode.asList : ReactNode → List ReactNode
  | .nodes children => children
  | n => [n]

/-- The key shown in a `TreeItem` label. -/
def keyLabelOf : ReactNode → Option Str
  | .treeItem _ k _ _ => some k
  | _ => none

/-- The `nodeId` of a `TreeItem`. -/
def nodeIdOf : ReactNode → Option Str
  | .treeItem nid _ _ _ => some nid
  | _ => none

/-- The stringified-value part of a `TreeItem` label (`none` on composite
entries, which show only the key). -/
def valueLabelOf : ReactNode → Option (Option Str)
  | .treeItem _ _ v _ => some v
  | _ => none

/-- The rendered children of a `TreeItem`, with array children flattened as
React renders them. -/
def childrenOf : ReactNode → List ReactNode
  | .treeItem _ _ _ cs => cs.flatMap ReactNode.asList
  | _ => []

/-- Navigation through rendered tree items by the keys of their labels:
`lookupPath ns [k1, ..., kn]` finds the item labelled `k1` among `ns`, then
descends into its children, and returns the item reached by the last key. -/
def lookupPath (ns : List ReactNode) : List Str → Option ReactNode
  | [] => none
  | k :: ks =>
    match ns.find? (fun n => keyLabelOf n == some k) with
    | none => none
    | some n => if ks.isEmpty then some n else lookupPath (childrenOf n) ks

/-- Navigation through a JSON value by entry keys (array indices in decimal),
following the first entry with the given key, as `Object.entries` order and
`find?` do. -/
def jsonGetPath (j : Json) : List Str → Option Json
  | [] => some j
  | k :: ks =>
    match (jsEntries j).find? (fun e => e.1 == k) with
    | none => none
    | some e => jsonGetPath e.2 ks

/-- The node id encoding an access path: the concatenation `['k1']['k2']...`
of the wrapped keys. -/
def pathNodeId (path : List Str) : Str := (path.map bracketWrap).flatten

lemma pathNodeId_cons (k : Str) (ks : List Str) :
    pathNodeId (k :: ks) = bracketWrap k ++ pathNodeId ks := by
  simp [pathNodeId]

lemma jsEntries_primitive {j : Json} (h : j.isComposite = false) :
    jsEntries j = [] := by
  cases j <;> first | rfl | simp [Json.isComposite] at h

lemma keyLabelOf_entryNode (p : Str) (e : Str × Json) :
    keyLabelOf (entryNode p e) = some e.1 := by
  rw [entryNode]
  split <;> rfl

lemma nodeIdOf_entryNode (p : Str) (e : Str × Json) :
    nodeIdOf (entryNode p e) = some (p ++ bracketWrap e.1) := by
  rw [entryNode]
  split <;> rfl

lemma valueLabelOf_entryNode_primitive {p : Str} {e : Str × Json}
    (h : e.2.isComposite = false) :
    valueLabelOf (entryNode p e) = some (some (jsonStringify e.2)) := by
  rw [entryNode, if_neg (by simp [h])]
  rfl

lemma childrenOf_entryNode_composite {p : Str} {e : Str × Json}
    (h : e.2.isComposite = true) :
    childrenOf (entryNode p e) =
      (convertToTree e.2 (p ++ bracketWrap e.1)).asList := by
  rw [entryNode, if_pos h]
  simp [childrenOf, List.flatMap]

lemma find?_map_entryNode (l : List (Str × Json)) (p : Str) (k : Str) :
    (l.map (entryNode p)).find? (fun n => keyLabelOf n == some k) =
      (l.find? (fun e => e.1 == k)).map (entryNode p) := by
  have hpred : ((fun n => keyLabelOf n == some k) ∘ entryNode p) =
      (fun e : Str × Json => e.1 == k) := by
    funext e
    simp only [Function.comp_apply, keyLabelOf_entryNode]
    rfl
  rw [List.find?_map, hpred]

/-- C4: `convertToTree` maps each composite JSON value to one tree node per
`Object.entries` entry (via `entryNode`, which recurses into composite entry
values and labels primitive entries with the `JSON.stringify` of their value),
maps each primitive value to a leaf labelled with its `JSON.stringify`, and
gives every node the id obtained by extending its parent's id with `['key']`,
so that the node reached by any entry path from the root carries the id
encoding that path. -/
theorem convertToTree_spec :
    (∀ (j : Json) (p : Str), j.isComposite = true →
      convertToTree j p = .nodes ((jsEntries j).map (entryNode p))) ∧
    (∀ (j : Json) (p : Str), j.isComposite = false →
      convertToTree j p =
        .jsonValue (p ++ bracketWrap (jsToString j)) (jsonStringify j)) ∧
    (∀ (path : List Str) (j : Json) (p : Str) (v : Json),
      jsonGetPath j path = some v → path ≠ [] →
      ∃ n, lookupPath (convertToTree j p).asList path = some n ∧
        nodeIdOf n = some (p ++ pathNodeId path) ∧
        (v.isComposite = false →
          valueLabelOf n = some (some (jsonStringify v))) ∧
        (v.isComposite = true →
          childrenOf n = (convertToTree v (p ++ pathNodeId path)).asList)) := by
  refine ⟨fun j p h => convertToTree_composite p h,
    fun j p h => convertToTree_primitive p h, ?_⟩
  intro path
  induction path with
  | nil => exact fun j p v _ hne => absurd rfl hne
  | cons k ks ih =>
    intro j p v hget _
    rw [jsonGetPath] at hget
    split at hget
    · exact absurd hget (by simp)
    · next e hfind =>
      have hcomp : j.isComposite = true := by
        by_contra hc
        rw [jsEntries_primitive (by simpa using hc)] at hfind
        exact absurd hfind (by simp)
      have hkeq : e.1 = k := by
        have := List.find?_some hfind
        simpa using this
      rw [convertToTree_composite p hcomp, ReactNode.asList, lookupPath,
        find?_map_entryNode, hfind]
      cases ks with
      | nil =>
        have hv : e.2 = v := by
          rw [jsonGetPath] at hget
          exact Option.some.inj hget
        refine ⟨entryNode p e, by simp, ?_, ?_, ?_⟩
        · rw [nodeIdOf_entryNode, pathNodeId_cons, hkeq]
          simp [pathNodeId]
        · intro hvp
          rw [valueLabelOf_entryNode_primitive (hv ▸ hvp), hv]
        · intro hvc
          rw [childrenOf_entryNode_composite (hv ▸ hvc), hv, hkeq]
          simp [pathNodeId]
      | cons k2 ks2 =>
        have hc2 : e.2.isComposite = true := by
          by_contra hc
          rw [jsonGetPath, jsEntries_primitive (by simpa using hc)] at hget
          exact absurd hget (by simp)
        obtain ⟨n, hn1, hn2, hn3, hn4⟩ :=
          ih e.2 (p ++ bracketWrap e.1) v hget (by simp)
        refine ⟨n, ?_, ?_, hn3, ?_⟩
        · simp only [Option.map_some', List.isEmpty_cons, Bool.false_eq_true,
            if_false]
          rw [childrenOf_entryNode_composite hc2]
          exact hn1
        · simp only [hn2, hkeq, pathNodeId_cons, List.append_assoc]
        · intro hvc
          simp only [hn4 hvc, hkeq, pathNodeId_cons, List.append_assoc]

/-- C4 witness: in the tree for `{"a": [5]}`, the path `a`, `0` reaches a
node whose id is `['a']['0']` and whose label shows `5`. -/
theorem convertToTree_spec_witness :
    ∃ n, lookupPath
        (convertToTree (Json.obj [(("a".data), Json.arr [Json.num 5])])
          []).asList [("a".data), ("0".data)] = some n ∧
      nodeIdOf n = some ([] ++ pathNodeId [("a".data), ("0".data)]) ∧
      ((Json.num 5).isComposite = false →
        valueLabelOf n = some (some (jsonStringify (Json.num 5)))) ∧
      ((Json.num 5).isComposite = true →
        childrenOf n =
          (convertToTree (Json.num 5)
            ([] ++ pathNodeId [("a".data), ("0".data)])).asList) :=
  convertToTree_spec.2.2 [("a".data), ("0".data)]
    (Json.obj [(("a".data), Json.arr [Json.num 5])]) [] (Json.num 5)
    rfl (by simp)

/-- C5: the recursion of `convertToTree` always descends into strictly
smaller values (each entry of a composite JSON value is strictly smaller than
the value itself, in the structural size), and bottoms out at primitive
values, which have no entries; `convertToTree` is therefore total on every
finite JSON value. -/
theorem convertToTree_terminating :
    (∀ (j : Json) (k : Str) (v : Json),
      (k, v) ∈ jsEntries j → sizeOf v < sizeOf j) ∧
    (∀ j : Json, j.isComposite = false → jsEntries j = []) :=
  ⟨fun _ _ _ h => jsEntries_sizeOf_lt h, fun _ h => jsEntries_primitive h⟩

/-- C5 witness: the sole entry of `[5]` is strictly smaller than `[5]`, and
the primitive `null` has no entries. -/
theorem convertToTree_terminating_witness :
    sizeOf (Json.num 5) < sizeOf (Json.arr [Json.num 5]) ∧
    jsEntries Json.null = [] :=
  ⟨convertToTree_terminating.1 (Json.arr [Json.num 5]) ((toString 0).data)
    (Json.num 5) (by simp [jsEntries, enumKeys]),
   convertToTree_terminating.2 Json.null rfl⟩

/-! ### The fetch-and-render lifecycle of the renderer variants
(PreviewElement.tsx: `CsvViewer`, `TextViewer`, `JsonViewer`, and the direct
`img`/`video`/`audio`/`iframe` elements returned by `PreviewContent`) -/

/-- How a fetching viewer asks for the response body: `response.text()` or
`response.json()`. -/
inductive FetchParse where
  | asText
  | asJson
deriving DecidableEq

/-- The body handed to a viewer's fetch continuation, already parsed the way
the viewer asked for it. -/
inductive FetchResult where
  | text (body : Str)
  | json (value : Json)

/-- One CSV record as `csv-parse` with `columns: true` returns it: the list of
column-name/field pairs. Modelled from the spec: the `csv-parse` library is an
external collaborator, kept at the granularity the spec uses ("CSV parsed to
rows and columns"): the first record gives the column names, each later
record becomes one row object pairing those names with its fields. -/
def parseCsvRecords (body : Str) : List (List (Str × Str)) :=
  match (body.splitOnP (· = '\n')).map (fun line => line.splitOnP (· = ',')) with
  | [] => []
  | header :: records => records.map (fun r => header.zip r)

/-- The column names the `CsvViewer` derives (`Object.keys(output[0])`). -/
def csvColumns (body : Str) : List Str :=
  ((parseCsvRecords body).headD []).map (fun f => f.1)

/-- What a renderer variant has rendered: nothing yet, a media or frame
element referencing `src` directly, a `DataGrid` of parsed CSV rows and
columns, a highlighted text block, or a JSON tree view. -/
inductive ViewerOutput where
  | empty
  | element (tag : Str) (src : Str) (name : Str)
  | dataGrid (rows : List (List (Str × Str))) (columns : List Str)
  | highlighted (content : Str)
  | treeView (root : ReactNode)

/-- A renderer variant's lifecycle: what it renders before any fetch
completes, and, when the component fetches the resource body on mount, how it
asks for the body and what it renders once the fetch completes. -/
structure ComponentModel where
  initial : ViewerOutput
  effect : Option (FetchParse × (FetchResult → ViewerOutput))

/-- Shallow embedding of the render lifecycle of each variant, read off the
seven branches of `PreviewContent` and the three viewer components:
`img`/`video`/`audio`/`iframe` render an element with the `src` URL and run
no fetch; `CsvViewer` fetches the body as text and renders a `DataGrid` of
the parsed records; `TextViewer` fetches the body as text and renders it
highlighted (starting from the empty string); `JsonViewer` fetches the body
as JSON and renders the `convertToTree` of the parsed value. -/
def renderVariant (v : RendererVariant) (name src : Str) : ComponentModel :=
  match v with
  | .image => ⟨.element ("img".data) src name, none⟩
  | .video => ⟨.element ("video".data) src name, none⟩
  | .audio => ⟨.element ("audio".data) src name, none⟩
  | .csv =>
    ⟨.empty, some (.asText, fun r =>
      match r with
      | .text body => .dataGrid (parseCsvRecords body) (csvColumns body)
      | .json _ => .empty)⟩
  | .text =>
    ⟨.highlighted [], some (.asText, fun r =>
      match r with
      | .text body => .highlighted body
      | .json _ => .empty)⟩
  | .json =>
    ⟨.empty, some (.asJson, fun r =>
      match r with
      | .json value => .treeView (convertToTree value [])
      | .text _ => .empty)⟩
  | .iframe => ⟨.element ("iframe".data) src name, none⟩

/-- C3 counterexample: the image variant runs no fetch at all — it renders an
`img` element referencing the URL and leaves the body to the browser — so it
is false that every variant lazily fetches and parses the resource body. -/
theorem renderVariant_image_no_fetch :
    (renderVariant .image ("photo.png".data) ("/object-url".data)).effect
      = none ∧
    (renderVariant .image ("photo.png".data) ("/object-url".data)).initial
      = .element ("img".data) ("/object-url".data) ("photo.png".data) :=
  ⟨rfl, rfl⟩

/-- C3 amended: exactly the CSV, text and JSON variants fetch the resource
body and parse it according to their variant (CSV into rows and columns, text
into a string, JSON into a tree of nodes), producing the display-ready
structure when the fetch completes; the image, video, audio and
embedded-frame variants instead render an element that references the URL
directly, without fetching. -/
theorem renderVariant_lifecycle (name src body : Str) (value : Json) :
    (∀ v : RendererVariant,
      (renderVariant v name src).effect.isSome =
        (v = .csv ∨ v = .text ∨ v = .json : Bool)) ∧
    (∃ f, (renderVariant .csv name src).effect = some (.asText, f) ∧
      f (.text body) = .dataGrid (parseCsvRecords body) (csvColumns body)) ∧
    (∃ f, (renderVariant .text name src).effect = some (.asText, f) ∧
      f (.text body) = .highlighted body) ∧
    (∃ f, (renderVariant .json name src).effect = some (.asJson, f) ∧
      f (.json value) = .treeView (convertToTree value [])) ∧
    (renderVariant .image name src).initial = .element ("img".data) src name ∧
    (renderVariant .video name src).initial =
      .element ("video".data) src name ∧
    (renderVariant .audio name src).initial =
      .element ("audio".data) src name ∧
    (renderVariant .iframe name src).initial =
      .element ("iframe".data) src name := by
  refine ⟨fun v => ?_, ⟨_, rfl, rfl⟩, ⟨_, rfl, rfl⟩, ⟨_, rfl, rfl⟩,
    rfl, rfl, rfl, rfl⟩
  cases v <;> rfl

/-! ### The S3 bucket listing loader (route.tsx lines 89-134) -/

/-- Index of the last occurrence of `c` in `s`, or `none`: JS
`s.lastIndexOf(c)` with `-1` rendered as `none`. -/
def lastIdxOf (s : Str) (c : Char) : Option Nat :=
  match s with
  | [] => none
  | a :: rest =>
    match lastIdxOf rest c with
    | some r => some (r + 1)
    | none => if a = c then some 0 else none

/-- JS `key.slice(0, key.lastIndexOf('/') + 1)`: everything up to and
including the last `'/'`, or the empty string when there is no `'/'`
(`lastIndexOf` returns `-1` and `slice(0, 0)` is empty). -/
def dirNameOf (key : Str) : Str :=
  key.take (match lastIdxOf key '/' with | none => 0 | some i => i + 1)

/-- JS `s.replace(pat, repl)` with a string pattern and a literal replacement:
the first occurrence of `pat`, scanning from the left, is replaced by `repl`;
a string without an occurrence is returned unchanged (the call site replaces
with the empty string, which has no `$`-pattern semantics). -/
def jsReplace (s pat repl : Str) : Str :=
  if pat.isPrefixOf s then repl ++ s.drop pat.length
  else match s with
    | [] => []
    | c :: rest => c :: jsReplace rest pat repl

lemma lastIdxOf_take {s : Str} {c : Char} {i : Nat} (h : lastIdxOf s c = some i) :
    s.take (i + 1) = s.take i ++ [c] := by
  induction s generalizing i with
  | nil => simp [lastIdxOf] at h
  | cons a rest ih =>
    rw [lastIdxOf] at h
    cases hr : lastIdxOf rest c with
    | some r =>
      simp only [hr, Option.some.injEq] at h
      subst h
      simp only [List.take_succ_cons, ih hr, List.cons_append]
    | none =>
      simp only [hr] at h
      split at h
      · next hac =>
        simp only [Option.some.injEq] at h
        subst h
        simp [hac]
      · exact absurd h (by simp)

/-- The listing prefix is empty or ends with a slash. -/
lemma dirNameOf_ends (key : Str) :
    dirNameOf key = [] ∨ jsEndsWith (dirNameOf key) ("/".data) = true := by
  rw [dirNameOf]
  cases h : lastIdxOf key '/' with
  | none => left; simp
  | some i =>
    right
    rw [lastIdxOf_take h, jsEndsWith, List.isSuffixOf_iff_suffix]
    exact ⟨_, rfl⟩

/-- Removing a leading occurrence: when `pat` is a prefix of `s`, the call
`s.replace(pat, '')` drops exactly that prefix. -/
lemma jsReplace_of_isPrefixOf {s pat : Str} (h : pat.isPrefixOf s = true) :
    jsReplace s pat [] = s.drop pat.length := by
  rw [jsReplace.eq_def, if_pos h]
  rfl

lemma append_drop_of_startsWith {s pat : Str}
    (h : jsStartsWith s pat = true) : pat ++ s.drop pat.length = s := by
  rw [jsStartsWith, List.isPrefixOf_iff_prefix] at h
  obtain ⟨t, rfl⟩ := h
  rw [List.drop_left]

/-- The SDK's `CommonPrefix` shape: an optional `Prefix` string. -/
structure CommonPrefix where
  Prefix : Option Str

/-- The SDK's `_Object` shape, at the granularity the loader inspects: an
optional `Key` string (the other SDK fields are passed through unchanged and
play no role in the claims). -/
structure S3Object where
  Key : Option Str

/-- The fields of the SDK's `ListObjectsV2CommandOutput` the loader reads. -/
structure ListObjectsV2Response where
  CommonPrefixes : Option (List CommonPrefix)
  Contents : Option (List S3Object)

/-- A directory entry after enrichment with the derived display fields. -/
structure EnrichedDirectory where
  Prefix : Option Str
  BucketName : Str
  DirName : Option Str
  BaseName : Option Str
deriving DecidableEq

/-- An object entry after enrichment with the derived display fields. -/
structure EnrichedObject where
  Key : Option Str
  BucketName : Str
  DirName : Option Str
  BaseName : Option Str
deriving DecidableEq

/-- What the loader returns to the route component. -/
structure S3LoaderResult where
  directories : List EnrichedDirectory
  objects : List EnrichedObject
  selectedObject : Option EnrichedObject

/-- Shallow embedding of the loader (route.tsx lines 89-134), after the
request parsing and the SDK call: `bucket` is `params.id`, `key?` is the
base64url-decoded `params.key` (or `none`), `resp` is the
`ListObjectsV2Command` response. Folders are the SDK `CommonPrefixes` plus
the `Contents` entries whose key ends with `'/'` and differs from the listing
prefix; objects are the `Contents` entries whose key does not end with `'/'`;
both are enriched with `BucketName`, `DirName` and `BaseName`; the selected
object is looked up by the decoded key when that key is a non-empty
non-directory key. -/
def s3Loader (bucket : Str) (key? : Option Str) (resp : ListObjectsV2Response) :
    S3LoaderResult :=
  let dir? : Option Str := key?.map dirNameOf
  let folders : List CommonPrefix :=
    (resp.CommonPrefixes.getD []) ++
      ((resp.Contents.getD []).filter (fun obj =>
        match obj.Key with
        | some k => jsEndsWith k ("/".data) && !(some k == dir?)
        | none => false)).map (fun obj => ⟨obj.Key⟩)
  let objects : List S3Object :=
    (resp.Contents.getD []).filter (fun obj =>
      match obj.Key with
      | some k => !(jsEndsWith k ("/".data))
      | none => true)
  let enrichedDirectories : List EnrichedDirectory :=
    folders.map (fun cp =>
      ⟨cp.Prefix, bucket, dir?,
        cp.Prefix.map (fun q => jsReplace q (dir?.getD []) [])⟩)
  let enrichedObjects : List EnrichedObject :=
    objects.map (fun obj =>
      ⟨obj.Key, bucket, dir?,
        obj.Key.map (fun k => jsReplace k (dir?.getD []) [])⟩)
  { directories := enrichedDirectories
    objects := enrichedObjects
    selectedObject :=
      match key? with
      | none => none
      | some k =>
        if decide (k ≠ []) && !(jsEndsWith k ("/".data)) then
          enrichedObjects.find? (fun o => o.Key == some k)
        else none }

/-- C6: every entry the loader returns carries `BucketName` equal to the
requested bucket and `DirName` equal to the listing prefix (the decoded key
up to and including its last slash), and for every entry whose key (or
prefix) starts with the listing prefix, `BaseName` is the key with the
listing prefix removed, so that the listing prefix concatenated with
`BaseName` reassembles the original `Key` (or `Prefix`). -/
theorem s3Loader_enrichment (bucket : Str) (key? : Option Str)
    (resp : ListObjectsV2Response) :
    (∀ d ∈ (s3Loader bucket key? resp).directories,
      d.BucketName = bucket ∧ d.DirName = key?.map dirNameOf) ∧
    (∀ o ∈ (s3Loader bucket key? resp).objects,
      o.BucketName = bucket ∧ o.DirName = key?.map dirNameOf) ∧
    (∀ o ∈ (s3Loader bucket key? resp).objects, ∀ k, o.Key = some k →
      jsStartsWith k ((key?.map dirNameOf).getD []) = true →
      o.BaseName =
        some (k.drop ((key?.map dirNameOf).getD []).length) ∧
      ((key?.map dirNameOf).getD []) ++
        k.drop ((key?.map dirNameOf).getD []).length = k) ∧
    (∀ d ∈ (s3Loader bucket key? resp).directories, ∀ q, d.Prefix = some q →
      jsStartsWith q ((key?.map dirNameOf).getD []) = true →
      d.BaseName =
        some (q.drop ((key?.map dirNameOf).getD []).length) ∧
      ((key?.map dirNameOf).getD []) ++
        q.drop ((key?.map dirNameOf).getD []).length = q) := by
  refine ⟨?_, ?_, ?_, ?_⟩
  · intro d hd
    simp only [s3Loader, List.mem_map] at hd
    obtain ⟨cp, _, rfl⟩ := hd
    exact ⟨rfl, rfl⟩
  · intro o ho
    simp only [s3Loader, List.mem_map] at ho
    obtain ⟨obj, _, rfl⟩ := ho
    exact ⟨rfl, rfl⟩
  · intro o ho k hk hstart
    simp only [s3Loader, List.mem_map] at ho
    obtain ⟨obj, _, rfl⟩ := ho
    simp only at hk
    refine ⟨?_, append_drop_of_startsWith hstart⟩
    simp only [hk, Option.map_some']
    rw [jsReplace_of_isPrefixOf hstart]
  · intro d hd q hq hstart
    simp only [s3Loader, List.mem_map] at hd
    obtain ⟨cp, _, rfl⟩ := hd
    simp only at hq
    refine ⟨?_, append_drop_of_startsWith hstart⟩
    simp only [hq, Option.map_some']
    rw [jsReplace_of_isPrefixOf hstart]

/-- C6 witness: listing bucket `b` at key `dir/a.txt` enriches the object
`dir/a.txt` with `BucketName` `b`, `DirName` `dir/`, and a `BaseName` that
reassembles the key. -/
theorem s3Loader_enrichment_witness :
    ((⟨some ("dir/a.txt".data), ("b".data), some ("dir/".data),
        some ("a.txt".data)⟩ : EnrichedObject).BucketName = ("b".data) ∧
      (⟨some ("dir/a.txt".data), ("b".data), some ("dir/".data),
        some ("a.txt".data)⟩ : EnrichedObject).DirName =
        (some ("dir/a.txt".data)).map dirNameOf) ∧
    (((some ("dir/a.txt".data)).map dirNameOf).getD []) ++
      List.drop ((((some ("dir/a.txt".data)).map dirNameOf).getD []).length)
        ("dir/a.txt".data) = ("dir/a.txt".data) :=
  ⟨(s3Loader_enrichment ("b".data) (some ("dir/a.txt".data))
      ⟨some [⟨some ("dir/x/".data)⟩], some [⟨some ("dir/a.txt".data)⟩]⟩).2.1
    ⟨some ("dir/a.txt".data), ("b".data), some ("dir/".data),
      some ("a.txt".data)⟩ (by decide),
   ((s3Loader_enrichment ("b".data) (some ("dir/a.txt".data))
      ⟨some [⟨some ("dir/x/".data)⟩], some [⟨some ("dir/a.txt".data)⟩]⟩).2.2.1
    ⟨some ("dir/a.txt".data), ("b".data), some ("dir/".data),
      some ("a.txt".data)⟩ (by decide) ("dir/a.txt".data) rfl (by decide)).2⟩

/-- C9: under the SDK contract for a delimited listing (every `CommonPrefix`
carries a prefix ending in a slash, no `Contents` key is the empty string),
the loader's partition is disjoint and exhaustive: every returned directory
prefix ends with a slash and is either an SDK `CommonPrefix` or a `Contents`
key that ends with a slash and differs from the listing prefix; no returned
object key ends with a slash; the `Contents` entry equal to the listing
prefix lands in neither list; every other `Contents` entry lands in the list
its key shape dictates; and `selectedObject` is produced only when the
decoded key is non-empty, does not end with a slash, and matches the key of a
returned object. -/
theorem s3Loader_partition (bucket : Str) (key? : Option Str)
    (resp : ListObjectsV2Response)
    (hcp : ∀ cp ∈ resp.CommonPrefixes.getD [], ∃ q, cp.Prefix = some q ∧
      jsEndsWith q ("/".data) = true)
    (hne : ∀ obj ∈ resp.Contents.getD [], obj.Key ≠ some []) :
    (∀ d ∈ (s3Loader bucket key? resp).directories,
      (∃ q, d.Prefix = some q ∧ jsEndsWith q ("/".data) = true) ∧
      ((∃ cp ∈ resp.CommonPrefixes.getD [], d.Prefix = cp.Prefix) ∨
       (∃ obj ∈ resp.Contents.getD [], ∃ k, obj.Key = some k ∧
         jsEndsWith k ("/".data) = true ∧ some k ≠ key?.map dirNameOf ∧
         d.Prefix = some k))) ∧
    (∀ o ∈ (s3Loader bucket key? resp).objects, ∀ k, o.Key = some k →
      jsEndsWith k ("/".data) = false) ∧
    (∀ key, key? = some key →
      ∀ o ∈ (s3Loader bucket key? resp).objects,
        o.Key ≠ some (dirNameOf key)) ∧
    (∀ obj ∈ resp.Contents.getD [], ∀ k, obj.Key = some k →
      (jsEndsWith k ("/".data) = true → some k ≠ key?.map dirNameOf →
        ∃ d ∈ (s3Loader bucket key? resp).directories, d.Prefix = some k) ∧
      (jsEndsWith k ("/".data) = false →
        ∃ o ∈ (s3Loader bucket key? resp).objects, o.Key = some k)) ∧
    (∀ so, (s3Loader bucket key? resp).selectedObject = some so →
      ∃ key, key? = some key ∧ key ≠ [] ∧
        jsEndsWith key ("/".data) = false ∧
        so ∈ (s3Loader bucket key? resp).objects ∧ so.Key = some key) := by
  have hobjKey : ∀ o ∈ (s3Loader bucket key? resp).objects, ∀ k,
      o.Key = some k →
      jsEndsWith k ("/".data) = false ∧
      ∃ obj ∈ resp.Contents.getD [], obj.Key = some k := by
    intro o ho k hk
    simp only [s3Loader, List.mem_map] at ho
    obtain ⟨obj, hmem, rfl⟩ := ho
    simp only at hk
    obtain ⟨hcont, hpred⟩ := List.mem_filter.mp hmem
    rw [hk] at hpred
    simp only [Bool.not_eq_true'] at hpred
    exact ⟨hpred, obj, hcont, hk⟩
  refine ⟨?_, ?_, ?_, ?_, ?_⟩
  · intro d hd
    simp only [s3Loader, List.mem_map] at hd
    obtain ⟨cp, hcpmem, rfl⟩ := hd
    rcases List.mem_append.mp hcpmem with hl | hr
    · obtain ⟨q, hq, hq2⟩ := hcp cp hl
      exact ⟨⟨q, hq, hq2⟩, Or.inl ⟨cp, hl, rfl⟩⟩
    · simp only [List.mem_map] at hr
      obtain ⟨obj, hobj, rfl⟩ := hr
      obtain ⟨hcont, hpred⟩ := List.mem_filter.mp hobj
      cases hko : obj.Key with
      | none => rw [hko] at hpred; exact absurd hpred (by simp)
      | some k =>
        rw [hko] at hpred
        simp only [Bool.and_eq_true, Bool.not_eq_true', beq_eq_false_iff_ne,
          ne_eq] at hpred
        refine ⟨⟨k, rfl, hpred.1⟩,
          Or.inr ⟨obj, hcont, k, ?_, hpred.1, hpred.2, ?_⟩⟩ <;> simp [hko]
  · intro o ho k hk
    exact (hobjKey o ho k hk).1
  · intro key hkey o ho hk
    obtain ⟨hends, obj, hcont, hko⟩ := hobjKey o ho _ hk
    rcases dirNameOf_ends key with hnil | hslash
    · exact hne obj hcont (hnil ▸ hko)
    · rw [hslash] at hends
      exact absurd hends (by simp)
  · intro obj hcont k hk
    constructor
    · intro hends hneq
      refine ⟨⟨some k, bucket, key?.map dirNameOf,
        some (jsReplace k ((key?.map dirNameOf).getD []) [])⟩, ?_, rfl⟩
      simp only [s3Loader, List.mem_map]
      refine ⟨⟨some k⟩, ?_, rfl⟩
      apply List.mem_append.mpr
      right
      simp only [List.mem_map]
      refine ⟨obj, ?_, by rw [hk]⟩
      apply List.mem_filter.mpr
      refine ⟨hcont, ?_⟩
      simp only [hk]
      simp [hends, hneq]
    · intro hends
      refine ⟨⟨some k, bucket, key?.map dirNameOf,
        some (jsReplace k ((key?.map dirNameOf).getD []) [])⟩, ?_, rfl⟩
      simp only [s3Loader, List.mem_map]
      refine ⟨obj, ?_, by rw [hk]; rfl⟩
      apply List.mem_filter.mpr
      refine ⟨hcont, ?_⟩
      simp only [hk]
      simp [hends]
  · intro so hso
    simp only [s3Loader] at hso
    cases hkey : key? with
    | none => rw [hkey] at hso; exact absurd hso (by simp)
    | some key =>
      rw [hkey] at hso
      simp only at hso
      split at hso
      · next hcond =>
        simp only [Bool.and_eq_true, decide_eq_true_eq,
          Bool.not_eq_true'] at hcond
        have hkne : key ≠ [] := hcond.1
        have hkends : jsEndsWith key ("/".data) = false := hcond.2
        have hmem := List.mem_of_find?_eq_some hso
        have hpred := List.find?_some hso
        have hkeq : so.Key = some key := by simpa using hpred
        refine ⟨key, rfl, hkne, hkends, ?_, hkeq⟩
        simpa only [s3Loader] using hmem
      · exact absurd hso (by simp)

/-- C9 witness: a listing of bucket `b` at key `dir/a.txt` where the SDK
returns the common prefix `dir/x/`, the folder marker `dir/`, the folder
marker `dir/sub/` and the object `dir/a.txt` yields `dir/a.txt` as a returned
object whose key does not end in a slash. -/
theorem s3Loader_partition_witness :
    jsEndsWith ("dir/a.txt".data) ("/".data) = false :=
  (s3Loader_partition ("b".data) (some ("dir/a.txt".data))
      ⟨some [⟨some ("dir/x/".data)⟩],
        some [⟨some ("dir/".data)⟩, ⟨some ("dir/sub/".data)⟩,
          ⟨some ("dir/a.txt".data)⟩]⟩
      (by decide) (by decide)).2.1
    ⟨some ("dir/a.txt".data), ("b".data), some ("dir/".data),
      some ("a.txt".data)⟩ (by decide) ("dir/a.txt".data) rfl

/-! ### The root error boundary (root route, `ErrorBoundary`) -/

/-- What `useRouteError` can hand the boundary: a route error response (as
recognised by `isRouteErrorResponse`, with its status, status text and
optional string data), an `Error` instance (with its message), or any other
thrown value. -/
inductive RouteError where
  | response (status : Nat) (statusText : Str) (data : Option Str)
  | jsError (message : Str)
  | other

/-- What the boundary does: render the status page (carrying the document
title and the heading it shows), rethrow a new `Error` with the given
message, render the generic error page showing a message, or render the
bare `Unknown Error` heading. -/
inductive BoundaryRender where
  | page (title : Str) (heading : Str)
  | rethrow (message : Str)
  | errorPage (message : Str)
  | unknown
deriving DecidableEq

/-- JS `a || b` for an optional string `a`: `b` when `a` is `undefined` or
the empty string (falsy), otherwise `a`. -/
def jsOr (a : Option Str) (b : Str) : Str :=
  match a with
  | some s => if s = [] then b else s
  | none => b

/-- Shallow embedding of `ErrorBoundary` (root route lines 174-230): a route
error response with status 401 or 404 renders a page titled
`status statusText` with heading `status: statusText`; any other response
status throws `new Error(error.data || error.statusText)`; an `Error`
instance renders the generic error page with its message; anything else
renders `Unknown Error`. -/
def ErrorBoundary : RouteError → BoundaryRender
  | .response status statusText data =>
    if status = 401 ∨ status = 404 then
      .page ((toString status).data ++ (" ".data) ++ statusText)
        ((toString status).data ++ (": ".data) ++ statusText)
    else .rethrow (jsOr data statusText)
  | .jsError message => .errorPage message
  | .other => .unknown

/-- C7: the boundary renders a titled status page exactly for 401 and 404
responses, rethrows every other response status as a new `Error` built from
`error.data` when that is a non-empty string and from the status text
otherwise, renders an `Error` instance's message, and renders `Unknown Error`
for any other thrown value. -/
theorem errorBoundary_spec :
    (∀ (st : Nat) (text : Str) (data : Option Str), st = 401 ∨ st = 404 →
      ErrorBoundary (.response st text data) =
        .page ((toString st).data ++ (" ".data) ++ text)
          ((toString st).data ++ (": ".data) ++ text)) ∧
    (∀ (st : Nat) (text : Str) (data : Option Str), st ≠ 401 → st ≠ 404 →
      ErrorBoundary (.response st text data) = .rethrow (jsOr data text)) ∧
    (∀ (text d : Str), d ≠ [] → jsOr (some d) text = d) ∧
    (∀ text : Str, jsOr none text = text) ∧
    (∀ text : Str, jsOr (some []) text = text) ∧
    (∀ msg : Str, ErrorBoundary (.jsError msg) = .errorPage msg) ∧
    ErrorBoundary .other = .unknown := by
  refine ⟨?_, ?_, ?_, ?_, ?_, fun _ => rfl, rfl⟩
  · intro st text data h
    rw [ErrorBoundary, if_pos h]
  · intro st text data h1 h2
    rw [ErrorBoundary, if_neg (by simp [h1, h2])]
  · intro text d h
    rw [jsOr, if_neg h]
  · intro text
    rfl
  · intro text
    rfl

/-- C7 witness: a 404 response renders the `404 Not Found` page, a 500
response with empty data rethrows with the status text, and a non-empty
`data` wins over the status text. -/
theorem errorBoundary_spec_witness :
    ErrorBoundary (.response 404 ("Not Found".data) none) =
      .page ((toString 404).data ++ (" ".data) ++ ("Not Found".data))
        ((toString 404).data ++ (": ".data) ++ ("Not Found".data)) ∧
    ErrorBoundary (.response 500 ("Server Error".data) none) =
      .rethrow (jsOr none ("Server Error".data)) ∧
    jsOr (some ("boom".data)) ("Server Error".data) = ("boom".data) :=
  ⟨errorBoundary_spec.1 404 ("Not Found".data) none (by decide),
   errorBoundary_spec.2.1 500 ("Server Error".data) none (by decide)
     (by decide),
   errorBoundary_spec.2.2.1 ("Server Error".data) ("boom".data) (by decide)⟩

/-! ### The create-queue action (sqs.queues._index/actions.ts lines 5-23) -/

/-- A submitted form, as the action reads it: named string fields in order
(`has` tests presence, `get` returns the first value for a name). -/
structure FormData where
  entries : List (Str × Str)

/-- JS `formData.has(k)`. -/
def FormData.has (fd : FormData) (k : Str) : Bool :=
  fd.entries.any (fun e => e.1 == k)

/-- JS `formData.get(k)`, `null` rendered as `none`. -/
def FormData.get (fd : FormData) (k : Str) : Option Str :=
  (fd.entries.find? (fun e => e.1 == k)).map (fun e => e.2)

/-- JS `Boolean.prototype.toString`. -/
def boolToString (b : Bool) : Str :=
  if b then "true".data else "false".data

/-- JS template-literal rendering of a possibly-`undefined` string
(`${x?.toString()}` renders `undefined` as the text `undefined`). -/
def jsTemplateOpt (v : Option Str) : Str :=
  match v with
  | some s => s
  | none => "undefined".data

/-- The input of one `CreateQueueCommand` as the action builds it. -/
structure CreateQueueCommand where
  QueueName : Str
  FifoQueue : Str
  ContentBasedDeduplication : Str
deriving DecidableEq

/-- What the action does: the commands it sends and where it redirects. -/
structure SqsActionResult where
  commandsSent : List CreateQueueCommand
  redirectTo : Str
deriving DecidableEq

/-- Shallow embedding of `createQueueAction`: one `CreateQueueCommand` whose
`QueueName` is the `name` field with `.fifo` appended when a `fifo` field is
present, whose `FifoQueue` attribute is the string of that presence and whose
`ContentBasedDeduplication` attribute is the string of the
`contentBasedDeduplication` presence, followed by a redirect to
`/sqs/queues`. -/
def createQueueAction (formData : FormData) : SqsActionResult :=
  let isFifo := formData.has ("fifo".data)
  { commandsSent :=
      [⟨jsTemplateOpt (formData.get ("name".data)) ++
          (if isFifo then (".fifo".data) else []),
        boolToString isFifo,
        boolToString (formData.has ("contentBasedDeduplication".data))⟩]
    redirectTo := "/sqs/queues".data }

/-- C8: on a form carrying a `name` field, the action sends exactly one
`CreateQueueCommand`: its `QueueName` is the `name` value with `.fifo`
appended if and only if the form has a `fifo` field, its `FifoQueue`
attribute is the string `true`/`false` of that presence, its
`ContentBasedDeduplication` attribute is the string of whether the form has
`contentBasedDeduplication`, and the action redirects to `/sqs/queues`. -/
theorem createQueueAction_spec (fd : FormData) (n : Str)
    (h : fd.get ("name".data) = some n) :
    (createQueueAction fd).commandsSent =
      [⟨n ++ (if fd.has ("fifo".data) then (".fifo".data) else []),
        boolToString (fd.has ("fifo".data)),
        boolToString (fd.has ("contentBasedDeduplication".data))⟩] ∧
    (createQueueAction fd).redirectTo = ("/sqs/queues".data) := by
  constructor
  · simp only [createQueueAction, h, jsTemplateOpt]
  · rfl

/-- C8 witness: a form with `name=jobs`, `fifo=on` and no
`contentBasedDeduplication` creates exactly the queue `jobs.fifo` with
`FifoQueue=true` and `ContentBasedDeduplication=false`, then redirects. -/
theorem createQueueAction_spec_witness :
    (createQueueAction ⟨[(("name".data), ("jobs".data)),
        (("fifo".data), ("on".data))]⟩).commandsSent =
      [⟨("jobs".data) ++
          (if FormData.has ⟨[(("name".data), ("jobs".data)),
              (("fifo".data), ("on".data))]⟩ ("fifo".data)
            then (".fifo".data) else []),
        boolToString (FormData.has ⟨[(("name".data), ("jobs".data)),
          (("fifo".data), ("on".data))]⟩ ("fifo".data)),
        boolToString (FormData.has ⟨[(("name".data), ("jobs".data)),
          (("fifo".data), ("on".data))]⟩
            ("contentBasedDeduplication".data))⟩] ∧
    (createQueueAction ⟨[(("name".data), ("jobs".data)),
        (("fifo".data), ("on".data))]⟩).redirectTo = ("/sqs/queues".data) :=
  createQueueAction_spec ⟨[(("name".data), ("jobs".data)),
    (("fifo".data), ("on".data))]⟩ ("jobs".data) (by decide)

/-! ### The console-home index loader (root index route, lines 23-26) -/

/-- What the index loader returns: the list of enabled services, or a
redirect. -/
inductive IndexLoaderResult where
  | services (enabled : List Str)
  | redirect (dest : Str)
deriving DecidableEq

/-- JS `services[0]` rendered through a template literal: the first element,
or the text `undefined` when the list is empty. -/
def jsIndexZero (l : List Str) : Str :=
  match l with
  | [] => "undefined".data
  | s :: _ => s

/-- Shallow embedding of the index loader:
`services.length > 1 ? { services } : redirect('/' + services[0])`, taking
the result of `getEnabledServices()` as input. -/
def indexLoader (services : List Str) : IndexLoaderResult :=
  if services.length > 1 then .services services
  else .redirect ('/' :: jsIndexZero services)

/-- C10: the index loader returns the enabled-services list exactly when more
than one service is enabled; with exactly one enabled service it redirects to
that service's page, and with none it redirects to `/undefined`. -/
theorem indexLoader_spec :
    (∀ services : List Str,
      indexLoader services = .services services ↔ services.length > 1) ∧
    (∀ s : Str, indexLoader [s] = .redirect ('/' :: s)) ∧
    indexLoader [] = .redirect ("/undefined".data) := by
  refine ⟨fun services => ?_, fun s => rfl, rfl⟩
  rw [indexLoader]
  split
  · next h => exact iff_of_true rfl h
  · next h => exact iff_of_false (by simp) h

end LocalUI
